import Mathlib

/-!
Verification of the regridding/aggregation core of cmaqsatproc.

The development shallowly embeds the data model and the operations of
`cmaqsatproc.readers.core.satellite` and of the OMI/VIIRS readers:
pandas/geopandas tables become Lean lists of rows, floating point numbers
become rationals, Python exceptions become `Except`/`Option` values, and
in-place mutation becomes explicit state passing.  Functions that live in
`cmaqsatproc.utils` (not part of the sources at hand) are modelled from the
specification and marked as such in their doc comments.
-/

namespace CmaqSatProc

/-- A planar polygon, given as its ring of vertices (closing edge implicit). -/
abbrev Polygon := List (ℚ × ℚ)

/-- Twice the signed shoelace area of a vertex ring: the sum of
`x_i * y_(i+1) - x_(i+1) * y_i` over consecutive vertex pairs, wrapping
around from the last vertex back to the first. -/
def ringCross (v : Polygon) : ℚ :=
  ((v.zip (v.rotate 1)).map (fun pq => pq.1.1 * pq.2.2 - pq.2.1 * pq.1.2)).sum

/-- Absolute value on the rationals, spelled out so that it evaluates by
kernel reduction. -/
def ratAbs (q : ℚ) : ℚ := if q < 0 then -q else q

/-- Planar polygon area as computed by `geometry.area` on an intersection
feature: the absolute shoelace area. -/
def polyArea (v : Polygon) : ℚ := ratAbs (ringCross v) / 2

/-- The intersection table `intx` produced by `gpd.overlay`: one geometry per
intersection feature, the other (index/value) columns row-aligned with it, and
an optional `weight` column (absent until `add_weights` runs). -/
structure IntxTable where
  geometry : List Polygon
  othercols : List (String × List ℚ)
  weight : Option (List ℚ)
deriving DecidableEq

/-- Outcome of a call to `satellite.add_weights`: the table state after the
call (`add_weights` mutates `intx` in place), the exception message if one was
raised, and the Python return value (`some ()` models `return None`). -/
structure AWResult where
  table : IntxTable
  raised : Option String
  ret : Option Unit
deriving DecidableEq

/-- `satellite.add_weights(intx, option)` from `readers/core.py`:
`'equal'` sets `intx['weight'] = 1` (broadcast over all rows), `'area'` sets
`intx['weight'] = intx.geometry.area`, any other option raises
`KeyError('Unknown weighting option ...')` before touching the table, and the
function ends with `return None`. -/
def add_weights (intx : IntxTable) (option : String) : AWResult :=
  if option = "equal" then
    { table := { intx with weight := some (intx.geometry.map fun _ => (1 : ℚ)) }
      raised := none, ret := some () }
  else if option = "area" then
    { table := { intx with weight := some (intx.geometry.map polyArea) }
      raised := none, ret := some () }
  else
    { table := intx
      raised := some ("Unknown weighting option " ++ option), ret := none }

/-- C1: `add_weights` with option `'equal'` gives every intersection feature
the constant weight 1; with option `'area'` it gives each feature the planar
area of its intersection polygon; and any other option raises a KeyError
whose message names the unknown option. -/
theorem add_weights_options (intx : IntxTable) (option : String) :
    (option = "equal" →
      (add_weights intx option).table.weight
        = some (intx.geometry.map fun _ => (1 : ℚ)))
    ∧ (option = "area" →
      (add_weights intx option).table.weight
        = some (intx.geometry.map polyArea))
    ∧ (option ≠ "equal" → option ≠ "area" →
      (add_weights intx option).raised
        = some ("Unknown weighting option " ++ option)) := by
  refine ⟨fun h => ?_, fun h => ?_, fun h1 h2 => ?_⟩
  · simp [add_weights, h]
  · simp [add_weights, h]
  · simp [add_weights, h1, h2]

/-- Witness for C1 on concrete tables: a one-feature table with the unit
square as intersection polygon, under each of the three options. -/
theorem add_weights_options_witness :
    (add_weights ⟨[[(0, 0), (1, 0), (1, 1), (0, 1)]], [], none⟩
        "equal").table.weight = some [1]
    ∧ (add_weights ⟨[[(0, 0), (1, 0), (1, 1), (0, 1)]], [], none⟩
        "area").table.weight = some [1]
    ∧ (add_weights ⟨[[(0, 0), (1, 0), (1, 1), (0, 1)]], [], none⟩
        "blah").raised = some ("Unknown weighting option blah") := by
  refine ⟨?_, ?_, ?_⟩
  · have h := (add_weights_options
      ⟨[[(0, 0), (1, 0), (1, 1), (0, 1)]], [], none⟩ "equal").1 rfl
    rw [h]; decide
  · have h := (add_weights_options
      ⟨[[(0, 0), (1, 0), (1, 1), (0, 1)]], [], none⟩ "area").2.1 rfl
    rw [h]; norm_num [polyArea, ringCross, ratAbs, List.rotate]
  · have h := (add_weights_options
      ⟨[[(0, 0), (1, 0), (1, 1), (0, 1)]], [], none⟩ "blah").2.2
      (by decide) (by decide)
    rw [h]; decide

/-- C10: `add_weights` mutates the table in place and returns None on the
recognized options, adding only the `weight` column and leaving geometry and
all other columns unchanged; on an unrecognized option it raises before any
assignment, leaving the table entirely unchanged. -/
theorem add_weights_frame (intx : IntxTable) (option : String) :
    ((option = "equal" ∨ option = "area") →
      (add_weights intx option).ret = some ()
      ∧ (add_weights intx option).raised = none
      ∧ (add_weights intx option).table.geometry = intx.geometry
      ∧ (add_weights intx option).table.othercols = intx.othercols
      ∧ ((add_weights intx option).table.weight).isSome = true)
    ∧ (option ≠ "equal" → option ≠ "area" →
      (add_weights intx option).table = intx
      ∧ (add_weights intx option).ret = none
      ∧ ((add_weights intx option).raised).isSome = true) := by
  constructor
  · rintro (h | h) <;> simp [add_weights, h]
  · intro h1 h2
    simp [add_weights, h1, h2]

/-- Witness for C10 on concrete tables: the frame conditions at a table with
one extra column, under a recognized and an unrecognized option. -/
theorem add_weights_frame_witness :
    ((add_weights ⟨[[(0, 0), (2, 0), (0, 2)]], [("nTimes", [3])], none⟩
        "area").table.othercols = [("nTimes", [3])]
      ∧ (add_weights ⟨[[(0, 0), (2, 0), (0, 2)]], [("nTimes", [3])], none⟩
        "area").ret = some ())
    ∧ (add_weights ⟨[[(0, 0), (2, 0), (0, 2)]], [("nTimes", [3])], none⟩
        "oops").table = ⟨[[(0, 0), (2, 0), (0, 2)]], [("nTimes", [3])], none⟩ := by
  refine ⟨⟨?_, ?_⟩, ?_⟩
  · exact (add_weights_frame
      ⟨[[(0, 0), (2, 0), (0, 2)]], [("nTimes", [3])], none⟩ "area").1
      (Or.inr rfl) |>.2.2.2.1
  · exact (add_weights_frame
      ⟨[[(0, 0), (2, 0), (0, 2)]], [("nTimes", [3])], none⟩ "area").1
      (Or.inr rfl) |>.1
  · exact ((add_weights_frame
      ⟨[[(0, 0), (2, 0), (0, 2)]], [("nTimes", [3])], none⟩ "oops").2
      (by decide) (by decide)).1

/-- A Python exception value: its class name and its message. -/
structure PyExc where
  name : String
  msg : String
deriving DecidableEq

/-- `repr(e)` for an exception, as stored into `nodata[path]` by
`paths_to_level3`: the class name applied to the message (quoting of the
message elided). -/
def reprExc (e : PyExc) : String := e.name ++ "(" ++ e.msg ++ ")"

/-- The per-path loop of `satellite.paths_to_level3`: for each path it
attempts `open_dataset` followed by `to_level3` (abstracted here as a single
fallible step `process`), storing a success into `withdata[path]` and storing
`repr` of any raised exception into `nodata[path]`, then continuing with the
remaining paths. -/
def paths_to_level3_loop {α : Type} (process : String → Except PyExc α) :
    List String → List (String × α) × List (String × String)
  | [] => ([], [])
  | p :: rest =>
    let acc := paths_to_level3_loop process rest
    match process p with
    | .ok v => ((p, v) :: acc.1, acc.2)
    | .error e => (acc.1, (p, reprExc e) :: acc.2)

theorem reprExc_ne_empty (e : PyExc) : reprExc e ≠ "" := by
  intro h
  have hlen := congrArg String.length h
  simp [reprExc, String.length_append] at hlen
  exact absurd hlen.2 (by decide)

/-- C2: the `paths_to_level3` loop never propagates a per-file exception:
every failing path is recorded in `nodata` with a non-empty error
description, every succeeding path still contributes its result to
`withdata`, and the two output maps are exactly the partition of the input
paths by success, so one failing file never prevents the rest of the batch
from producing results. -/
theorem paths_to_level3_loop_spec {α : Type}
    (process : String → Except PyExc α) (paths : List String) :
    (∀ p ∈ paths, ∀ v, process p = .ok v →
      (p, v) ∈ (paths_to_level3_loop process paths).1)
    ∧ (∀ p ∈ paths, ∀ e, process p = .error e →
      (p, reprExc e) ∈ (paths_to_level3_loop process paths).2
        ∧ reprExc e ≠ "")
    ∧ (paths_to_level3_loop process paths).1 = paths.filterMap
        (fun p => match process p with
          | .ok v => some (p, v)
          | .error _ => none)
    ∧ (paths_to_level3_loop process paths).2 = paths.filterMap
        (fun p => match process p with
          | .ok _ => none
          | .error e => some (p, reprExc e)) := by
  induction paths with
  | nil => simp [paths_to_level3_loop]
  | cons p rest ih =>
    obtain ⟨ih1, ih2, ih3, ih4⟩ := ih
    have hsplit : ∀ q : String, (∃ v, process q = .ok v)
        ∨ (∃ e, process q = .error e) := by
      intro q
      cases hq : process q with
      | ok v => exact Or.inl ⟨v, rfl⟩
      | error e => exact Or.inr ⟨e, rfl⟩
    refine ⟨?_, ?_, ?_, ?_⟩
    · rintro q hq v hv
      rcases List.mem_cons.mp hq with h | h
      · subst h
        simp [paths_to_level3_loop, hv]
      · have := ih1 q h v hv
        cases hp : process p <;>
          simp [paths_to_level3_loop, hp, this]
    · rintro q hq e he
      rcases List.mem_cons.mp hq with h | h
      · subst h
        exact ⟨by simp [paths_to_level3_loop, he], reprExc_ne_empty e⟩
      · refine ⟨?_, reprExc_ne_empty e⟩
        have := (ih2 q h e he).1
        cases hp : process p <;>
          simp [paths_to_level3_loop, hp, this]
    · cases hp : process p <;>
        simp [paths_to_level3_loop, hp, ih3]
    · cases hp : process p <;>
        simp [paths_to_level3_loop, hp, ih4]

/-- Witness for C2: a batch of three paths where the middle one fails; the
two good paths still produce results and the failure is recorded with a
non-empty description against exactly the bad path. -/
theorem paths_to_level3_loop_spec_witness :
    ((("a", 10) ∈ (paths_to_level3_loop
        (fun p => if p = "b" then .error ⟨"ValueError", "No valid pixels"⟩
          else .ok 10) ["a", "b", "c"]).1)
    ∧ (("b", reprExc ⟨"ValueError", "No valid pixels"⟩)
        ∈ (paths_to_level3_loop
          (fun p => if p = "b" then .error ⟨"ValueError", "No valid pixels"⟩
            else .ok 10) ["a", "b", "c"]).2)
    ∧ reprExc ⟨"ValueError", "No valid pixels"⟩ ≠ "")
    ∧ (paths_to_level3_loop
        (fun p => if p = "b" then .error ⟨"ValueError", "No valid pixels"⟩
          else .ok 10) ["a", "b", "c"]).1 = [("a", 10), ("c", 10)] := by
  constructor
  · refine ⟨?_, ?_⟩
    · exact (paths_to_level3_loop_spec
        (fun p => if p = "b" then .error ⟨"ValueError", "No valid pixels"⟩
          else .ok 10) ["a", "b", "c"]).1 "a" (by decide) 10 (by rfl)
    · exact (paths_to_level3_loop_spec
        (fun p => if p = "b" then .error ⟨"ValueError", "No valid pixels"⟩
          else .ok 10) ["a", "b", "c"]).2.1 "b" (by decide)
        ⟨"ValueError", "No valid pixels"⟩ (by rfl)
  · have h := (paths_to_level3_loop_spec
      (fun p => if p = "b" then .error ⟨"ValueError", "No valid pixels"⟩
        else .ok 10) ["a", "b", "c"]).2.2.1
    rw [h]; decide

/-- The rows of one group that carry a non-null value, paired with their
weights. -/
def validRows (rows : List (Option ℚ × ℚ)) : List (ℚ × ℚ) :=
  rows.filterMap (fun r => r.1.map (fun v => (v, r.2)))

/-- Modelled from the spec: `cmaqsatproc.utils.grouped_weighted_avg` (used by
`to_level3` and `paths_to_level3` but not among the sources at hand).  For one
grid-dimension group of (value, weight) rows it computes the weight-normalized
average `sum(value*weight)/sum(weight)` over the rows with non-null value,
together with the separate `sum(weight)` retained as `weight_sum`; a group
with zero total weight yields a null average instead of a division error. -/
def grouped_weighted_avg (rows : List (Option ℚ × ℚ)) : Option ℚ × ℚ :=
  let wsum := ((validRows rows).map Prod.snd).sum
  if wsum = 0 then (none, wsum)
  else (some (((validRows rows).map (fun p => p.1 * p.2)).sum / wsum), wsum)

theorem list_sum_zero_of_nonneg {l : List ℚ} (hnn : ∀ x ∈ l, 0 ≤ x)
    (hz : l.sum = 0) : ∀ x ∈ l, x = 0 := by
  induction l with
  | nil => simp
  | cons a t ih =>
    have hta : 0 ≤ a := hnn a (List.mem_cons_self a t)
    have htt : ∀ x ∈ t, 0 ≤ x := fun x hx => hnn x (List.mem_cons_of_mem a hx)
    have hts : 0 ≤ t.sum := List.sum_nonneg htt
    have hsum : a + t.sum = 0 := by simpa using hz
    have haz : a = 0 := le_antisymm (by linarith) hta
    have htz : t.sum = 0 := by linarith
    intro x hx
    rcases List.mem_cons.mp hx with h | h
    · exact h ▸ haz
    · exact ih htt htz x h

theorem validRows_weight_mem {rows : List (Option ℚ × ℚ)} {p : ℚ × ℚ}
    (hp : p ∈ validRows rows) : p.2 ∈ rows.map Prod.snd := by
  rcases List.mem_filterMap.mp hp with ⟨r, hr, heq⟩
  cases h1 : r.1 with
  | none => simp [h1] at heq
  | some v =>
    have hpr : (v, r.2) = p := by simpa [h1] using heq
    exact List.mem_map.mpr ⟨r, hr, by rw [← hpr]⟩

/-- C5: in the grouped weighted average, a group whose total weight is zero
(all weights vanish; weights are counts or areas, hence nonnegative) yields a
null averaged value and a zero `weight_sum` — the computation is total, so no
divide-by-zero error is ever raised. -/
theorem grouped_weighted_avg_zero_weight (rows : List (Option ℚ × ℚ))
    (hnn : ∀ r ∈ rows, 0 ≤ r.2) (hz : (rows.map Prod.snd).sum = 0) :
    (grouped_weighted_avg rows).1 = none
    ∧ (grouped_weighted_avg rows).2 = 0 := by
  have hnn' : ∀ x ∈ rows.map Prod.snd, 0 ≤ x := by
    intro x hx
    rcases List.mem_map.mp hx with ⟨r, hr, hxr⟩
    exact hxr ▸ hnn r hr
  have hallz := list_sum_zero_of_nonneg hnn' hz
  have hvz : ((validRows rows).map Prod.snd).sum = 0 := by
    apply List.sum_eq_zero
    intro w hw
    rcases List.mem_map.mp hw with ⟨p, hp, hwp⟩
    exact hwp ▸ hallz p.2 (validRows_weight_mem hp)
  simp [grouped_weighted_avg, hvz]

/-- Witness for C5: a group of two rows, one with a null value, all weights
zero. -/
theorem grouped_weighted_avg_zero_weight_witness :
    (grouped_weighted_avg [(some 5, 0), (none, 0)]).1 = none
    ∧ (grouped_weighted_avg [(some 5, 0), (none, 0)]).2 = 0 :=
  grouped_weighted_avg_zero_weight [(some 5, 0), (none, 0)]
    (by simp) (by simp)

/-- The numerator contribution of one row to a grouped weighted average:
`value * weight` for a non-null value, nothing otherwise. -/
def rowN (r : Option ℚ × ℚ) : ℚ :=
  match r.1 with
  | none => 0
  | some v => v * r.2

/-- The denominator contribution of one row to a grouped weighted average:
its weight when the value is non-null, nothing otherwise. -/
def rowW (r : Option ℚ × ℚ) : ℚ :=
  match r.1 with
  | none => 0
  | some _ => r.2

theorem validRows_map_sum_N (rows : List (Option ℚ × ℚ)) :
    ((validRows rows).map (fun p => p.1 * p.2)).sum = (rows.map rowN).sum := by
  induction rows with
  | nil => simp [validRows]
  | cons r rest ih =>
    obtain ⟨o, w⟩ := r
    cases o <;> simp [validRows, rowN, List.filterMap_cons] at ih ⊢ <;>
      simp [ih]

theorem validRows_map_sum_W (rows : List (Option ℚ × ℚ)) :
    ((validRows rows).map Prod.snd).sum = (rows.map rowW).sum := by
  induction rows with
  | nil => simp [validRows]
  | cons r rest ih =>
    obtain ⟨o, w⟩ := r
    cases o <;> simp [validRows, rowW, List.filterMap_cons] at ih ⊢ <;>
      simp [ih]

theorem gwa_eq (rows : List (Option ℚ × ℚ)) :
    grouped_weighted_avg rows =
      (if (rows.map rowW).sum = 0 then none
        else some ((rows.map rowN).sum / (rows.map rowW).sum),
       (rows.map rowW).sum) := by
  rw [grouped_weighted_avg]
  simp only [validRows_map_sum_N, validRows_map_sum_W]
  split_ifs <;> rfl

theorem rowW_nonneg (r : Option ℚ × ℚ) (h : 0 ≤ r.2) : 0 ≤ rowW r := by
  obtain ⟨o, w⟩ := r
  cases o <;> simp [rowW] <;> exact h

theorem rowN_eq_zero_of_rowW (r : Option ℚ × ℚ) (h : rowW r = 0) :
    rowN r = 0 := by
  obtain ⟨o, w⟩ := r
  cases o <;> simp_all [rowW, rowN]

/-- C3: multi-file re-combination with `weight_sum` as the second-pass weight
is associative.  Each per-file Level-3 table contributes, per grid cell, one
row (averaged value, weight_sum); combining files A, B, C in one batch equals
combining A with B and then combining that intermediate result with C.  Over
the rationals the equality is exact (the floating-point tolerance of the
claim is not needed); weights are nonnegative, being sums of counts or
areas. -/
theorem combine_assoc (a b c : Option ℚ × ℚ)
    (ha : 0 ≤ a.2) (hb : 0 ≤ b.2) (hc : 0 ≤ c.2) :
    grouped_weighted_avg [a, b, c]
      = grouped_weighted_avg [grouped_weighted_avg [a, b], c] := by
  by_cases hW : rowW a + rowW b = 0
  · have hNa : rowN a = 0 := by
      apply rowN_eq_zero_of_rowW
      have h1 := rowW_nonneg a ha
      have h2 := rowW_nonneg b hb
      linarith
    have hNb : rowN b = 0 := by
      apply rowN_eq_zero_of_rowW
      have h1 := rowW_nonneg a ha
      have h2 := rowW_nonneg b hb
      linarith
    have hm : grouped_weighted_avg [a, b] = (none, 0) := by
      rw [gwa_eq]
      simp [hW, show rowW a + rowW b + 0 = 0 by rw [add_zero]; exact hW]
    rw [hm, gwa_eq, gwa_eq]
    simp only [List.map_cons, List.map_nil, List.sum_cons, List.sum_nil,
      add_zero]
    have hma : rowW (none, (0 : ℚ)) = 0 := by simp [rowW]
    have hmn : rowN (none, (0 : ℚ)) = 0 := by simp [rowN]
    rw [hma, hmn]
    have hWa0 : rowW a = 0 := by
      have h1 := rowW_nonneg a ha
      have h2 := rowW_nonneg b hb
      linarith
    have hWb0 : rowW b = 0 := by
      have h1 := rowW_nonneg a ha
      have h2 := rowW_nonneg b hb
      linarith
    rw [hNa, hNb, hWa0, hWb0]
    ring_nf
  · have hm : grouped_weighted_avg [a, b]
        = (some ((rowN a + rowN b) / (rowW a + rowW b)), rowW a + rowW b) := by
      rw [gwa_eq]
      simp only [List.map_cons, List.map_nil, List.sum_cons, List.sum_nil,
        add_zero]
      simp [hW]
    rw [hm, gwa_eq, gwa_eq]
    simp only [List.map_cons, List.map_nil, List.sum_cons, List.sum_nil,
      add_zero]
    have hmw : rowW (some ((rowN a + rowN b) / (rowW a + rowW b)),
        rowW a + rowW b) = rowW a + rowW b := by simp [rowW]
    have hmn : rowN (some ((rowN a + rowN b) / (rowW a + rowW b)),
        rowW a + rowW b) = rowN a + rowN b := by
      simp only [rowN]
      exact div_mul_cancel₀ _ hW
    rw [hmw, hmn]
    ring_nf

/-- Witness for C3: three concrete per-file rows with distinct values and
weights. -/
theorem combine_assoc_witness :
    grouped_weighted_avg [(some 1, 1), (some 2, 2), (some 3, 3)]
      = grouped_weighted_avg
          [grouped_weighted_avg [(some 1, 1), (some 2, 2)], (some 3, 3)] :=
  combine_assoc (some 1, 1) (some 2, 2) (some 3, 3)
    (by decide) (by decide) (by decide)

/-- One row of the Latitude/Longitude dataframe inspected by the bounding-box
restriction, carrying its along-track index value. -/
structure GeoIdxRow where
  latitude : ℚ
  longitude : ℚ
  nTimes : ℕ
deriving DecidableEq

/-- A bounding box `(swlon, swlat, nelon, nelat)` in decimal degrees. -/
abbrev BBox := ℚ × ℚ × ℚ × ℚ

/-- The `df.query` bounds test of the bounding-box restriction:
latitude within `[swlat, nelat]` and longitude within `[swlon, nelon]`. -/
def bbox_query (bb : BBox) (r : GeoIdxRow) : Bool :=
  decide (bb.2.1 ≤ r.latitude) && decide (r.latitude ≤ bb.2.2.2)
    && decide (bb.1 ≤ r.longitude) && decide (r.longitude ≤ bb.2.2.1)

/-- Failure modes of the bounding-box restriction. -/
inductive PrepErr
  /-- the branch raising `ValueError('... has no values in ...')`, guarded by
  `if len(times) < 0` -/
  | noValues
  /-- the distinct failure reached when the restricted index is empty:
  `times.min()` of an empty index yields no usable slice bound -/
  | emptyIndex
deriving DecidableEq

/-- The bounding-box restriction of `OMIL2.prep_dataset` (the same control
flow, with only the index names changed, appears in `VIIRS_AERDT.prep_dataset`
and `VIIRS_AERDB.prep_dataset`): restrict the Latitude/Longitude table to the
box, collect the values of the along-track index of the surviving rows, raise
the `'no values in bbox'` error when `len(times) < 0`, and otherwise slice
the dataset to `slice(times.min(), times.max() + 1)` along that index. -/
def prep_dataset (rows : List GeoIdxRow) (bbox : Option BBox) :
    Except PrepErr (List GeoIdxRow) :=
  match bbox with
  | none => .ok rows
  | some bb =>
    let df := rows.filter (bbox_query bb)
    let times := (df.map GeoIdxRow.nTimes).dedup
    if times.length < 0 then .error .noValues
    else
      match times.min?, times.max? with
      | some lo, some hi =>
        .ok (rows.filter
          (fun r => decide (lo ≤ r.nTimes) && decide (r.nTimes ≤ hi)))
      | _, _ => .error .emptyIndex

/-- C9: the `'has no values in bbox'` error branch is unreachable for every
input dataset and bounding box, because `len(times) < 0` is never true of a
length; even a bounding box containing zero pixels does not raise it (the
empty restricted index fails differently, further down). -/
theorem prep_dataset_guard_unreachable (rows : List GeoIdxRow)
    (bbox : Option BBox) :
    prep_dataset rows bbox ≠ .error .noValues
    ∧ (∀ bb, bbox = some bb → rows.filter (bbox_query bb) = [] →
      prep_dataset rows bbox = .error .emptyIndex) := by
  constructor
  · cases bbox with
    | none => simp [prep_dataset]
    | some bb =>
      simp only [prep_dataset]
      intro h
      rcases hmin : ((rows.filter (bbox_query bb)).map
          GeoIdxRow.nTimes).dedup.min? with _ | lo <;>
        rcases hmax : ((rows.filter (bbox_query bb)).map
          GeoIdxRow.nTimes).dedup.max? with _ | hi <;>
        simp [hmin, hmax] at h
  · rintro bb rfl hempty
    simp [prep_dataset, hempty, List.min?]

/-- Witness for C9: a single pixel lying outside the box; the restriction
fails on the empty index, not with the `'no values in bbox'` error. -/
theorem prep_dataset_guard_unreachable_witness :
    prep_dataset [⟨40, -75, 0⟩] (some (0, 0, 10, 10))
      ≠ Except.error PrepErr.noValues
    ∧ prep_dataset [⟨40, -75, 0⟩] (some (0, 0, 10, 10))
      = Except.error PrepErr.emptyIndex := by
  constructor
  · exact (prep_dataset_guard_unreachable [⟨40, -75, 0⟩]
      (some (0, 0, 10, 10))).1
  · exact (prep_dataset_guard_unreachable [⟨40, -75, 0⟩]
      (some (0, 0, 10, 10))).2 (0, 0, 10, 10) rfl (by decide)

/-- One pixel row of a swath dataset as seen by `satellite.to_dataframe`:
its validity flag and the four corner coordinate pairs. -/
structure PixelRow where
  valid : Bool
  ll_x : ℚ
  ll_y : ℚ
  lu_x : ℚ
  lu_y : ℚ
  uu_x : ℚ
  uu_y : ℚ
  ul_x : ℚ
  ul_y : ℚ
deriving DecidableEq

/-- Modelled from the spec: `utils.EasyDataFramePolygon` (not among the
sources at hand) builds, for each row, the quadrilateral through the corners
in the order ll to lu to uu to ul, closing back to ll; rows that cannot
yield a valid quadrilateral (here: a degenerate ring of zero area) are
excluded during geometry construction. -/
def EasyDataFramePolygon (r : PixelRow) : Option Polygon :=
  let ring := [(r.ll_x, r.ll_y), (r.lu_x, r.lu_y),
    (r.uu_x, r.uu_y), (r.ul_x, r.ul_y)]
  if polyArea ring = 0 then none else some ring

/-- `satellite.to_dataframe` restricted to what the geometry path decides:
flatten the dataset to one row per pixel index, drop invalid rows when
`valid` is set, and when `geo` is set build the corner table `gdf` under the
same filter, raise `ValueError('No valid pixels')` if it has zero rows —
note this check runs before geometry construction — and otherwise attach the
constructed polygons, rows that yield no valid quadrilateral being
excluded. -/
def to_dataframe (rows : List PixelRow) (valid : Bool) (geo : Bool) :
    Except String (List (PixelRow × Option Polygon)) :=
  let df := if valid then rows.filter (fun r => r.valid) else rows
  if geo then
    if df.length = 0 then .error "No valid pixels"
    else .ok (df.filterMap (fun r =>
      (EasyDataFramePolygon r).map (fun p => (r, some p))))
  else .ok (df.map fun r => (r, none))

/-- The geometry stage of `satellite.to_level3`: build the valid-pixel
geometry table via `to_dataframe(geo=True)`, keep its geometry column after
reprojection (reprojection keeps every row), and raise
`ValueError('No valid pixels')` if zero rows remain. -/
def to_level3_geo (rows : List PixelRow) : Except String (List Polygon) :=
  match to_dataframe rows true true with
  | .error e => .error e
  | .ok gdf =>
    let geodf := gdf.filterMap (fun rg => rg.2)
    if geodf.length = 0 then .error "No valid pixels"
    else .ok geodf

/-- The geometry column of the constructed table is exactly the polygons the
construction kept. -/
theorem geodf_eq (df : List PixelRow) :
    (df.filterMap (fun r =>
      (EasyDataFramePolygon r).map (fun p => (r, some p)))).filterMap
        (fun rg : PixelRow × Option Polygon => rg.2)
      = df.filterMap EasyDataFramePolygon := by
  induction df with
  | nil => rfl
  | cons r rest ih =>
    cases h : EasyDataFramePolygon r <;>
      simp [List.filterMap_cons, h, ih]

/-- Counterexample to C6 as stated: a dataset whose single valid pixel has
four identical corners survives validity filtering but is excluded during
geometry construction; since the `'No valid pixels'` check of
`to_dataframe` precedes construction, `to_dataframe` returns an empty
geometry table silently (zero rows remain after filtering and construction,
yet no error).  `to_level3` still catches the emptiness with its own
check. -/
theorem to_dataframe_empty_silent :
    to_dataframe [⟨true, 0, 0, 0, 0, 0, 0, 0, 0⟩] true true = .ok []
    ∧ to_level3_geo [⟨true, 0, 0, 0, 0, 0, 0, 0, 0⟩]
      = .error "No valid pixels" := by
  constructor
  · norm_num [to_dataframe, EasyDataFramePolygon, polyArea, ringCross,
      ratAbs, List.rotate, List.filterMap_cons]
  · norm_num [to_level3_geo, to_dataframe, EasyDataFramePolygon, polyArea,
      ringCross, ratAbs, List.rotate, List.filterMap_cons]

/-- C6 (amended): `to_dataframe` with geometry requested raises
`'No valid pixels'` whenever zero rows survive validity filtering; the check
precedes geometry construction, so rows excluded during construction do not
trigger it.  `to_level3` raises the same error whenever its reprojected
pixel-geometry table has zero rows — whether emptied by validity filtering
or by geometry construction — and never returns an empty result
silently. -/
theorem to_dataframe_empty_error (rows : List PixelRow) (valid : Bool) :
    ((if valid then rows.filter (fun r => r.valid) else rows) = [] →
      to_dataframe rows valid true = .error "No valid pixels")
    ∧ (rows.filter (fun r => r.valid) = [] →
      to_level3_geo rows = .error "No valid pixels")
    ∧ ((rows.filter (fun r => r.valid)).filterMap EasyDataFramePolygon = [] →
      to_level3_geo rows = .error "No valid pixels")
    ∧ (∀ geos, to_level3_geo rows = .ok geos → geos ≠ []) := by
  refine ⟨?_, ?_, ?_, ?_⟩
  · intro h
    simp [to_dataframe, h]
  · intro h
    simp [to_level3_geo, to_dataframe, h]
  · intro hcon
    by_cases hdf : rows.filter (fun r => r.valid) = []
    · simp [to_level3_geo, to_dataframe, hdf]
    · have htd : to_dataframe rows true true
          = .ok ((rows.filter (fun r => r.valid)).filterMap (fun r =>
            (EasyDataFramePolygon r).map (fun p => (r, some p)))) := by
        simp [to_dataframe, hdf]
      simp only [to_level3_geo, htd, geodf_eq, hcon]
      rfl
  · intro geos hgeos hnil
    subst hnil
    rcases htd : to_dataframe rows true true with e | gdf
    · simp [to_level3_geo, htd] at hgeos
    · simp only [to_level3_geo, htd, List.length_eq_zero] at hgeos
      by_cases hg : gdf.filterMap (fun rg => rg.2) = []
      · rw [if_pos hg] at hgeos
        cases hgeos
      · rw [if_neg hg] at hgeos
        exact hg (by simpa using hgeos)

/-- Witness for the amended C6: an all-invalid dataset triggers the error in
both operations, a valid-but-degenerate dataset triggers it in `to_level3`,
and a valid non-degenerate dataset yields a non-empty geometry table. -/
theorem to_dataframe_empty_error_witness :
    to_dataframe [⟨false, 0, 0, 0, 1, 1, 1, 1, 0⟩] true true
      = .error "No valid pixels"
    ∧ to_level3_geo [⟨false, 0, 0, 0, 1, 1, 1, 1, 0⟩]
      = .error "No valid pixels"
    ∧ to_level3_geo [⟨true, 0, 0, 0, 0, 0, 0, 0, 0⟩]
      = .error "No valid pixels"
    ∧ [([(0, 0), (0, 1), (1, 1), (1, 0)] : Polygon)] ≠ [] := by
  refine ⟨?_, ?_, ?_, ?_⟩
  · exact (to_dataframe_empty_error [⟨false, 0, 0, 0, 1, 1, 1, 1, 0⟩]
      true).1 (by decide)
  · exact (to_dataframe_empty_error [⟨false, 0, 0, 0, 1, 1, 1, 1, 0⟩]
      true).2.1 (by decide)
  · exact (to_dataframe_empty_error [⟨true, 0, 0, 0, 0, 0, 0, 0, 0⟩]
      true).2.2.1 (by norm_num [EasyDataFramePolygon, polyArea, ringCross,
        ratAbs, List.rotate, List.filterMap_cons])
  · exact (to_dataframe_empty_error [⟨true, 0, 0, 0, 1, 1, 1, 1, 0⟩]
      true).2.2.2 [[(0, 0), (0, 1), (1, 1), (1, 0)]]
      (by norm_num [to_level3_geo, to_dataframe, EasyDataFramePolygon,
        polyArea, ringCross, ratAbs, List.rotate, List.filterMap_cons])

/-- The bounding-box membership conjunct added to `valid` when a bbox is
given: latitude within `[swlat, nelat]` and longitude within
`[swlon, nelon]`. -/
def bbox_valid (bb : BBox) (lat lon : ℚ) : Bool :=
  decide (bb.2.1 ≤ lat) && decide (lat ≤ bb.2.2.2)
    && decide (bb.1 ≤ lon) && decide (lon ≤ bb.2.2.1)

/-- One pixel of an OMNO2 dataset, with the fields its validity test reads. -/
structure OMNO2Row where
  vcdQualityFlags : ℤ
  xTrackQualityFlags : ℤ
  cloudFraction : ℚ
  latitude : ℚ
  longitude : ℚ
deriving DecidableEq

/-- The `valid` flag computed by `OMNO2.open_dataset`:
`(VcdQualityFlags & 1) == 0`, `XTrackQualityFlags == 0` and
`CloudFraction <= 0.3`, AND-ed with the bounding-box test when a bbox is
given. -/
def OMNO2_valid (bbox : Option BBox) (r : OMNO2Row) : Bool :=
  (r.vcdQualityFlags % 2 == 0) && (r.xTrackQualityFlags == 0)
    && decide (r.cloudFraction ≤ 3 / 10)
    && (match bbox with
      | none => true
      | some bb => bbox_valid bb r.latitude r.longitude)

/-- Result of the validity step of `OMNO2.open_dataset`: the rows annotated
with their `valid` flag, plus the warnings issued.  The type has no error
channel because this step of the source has no raising branch: with zero
valid pixels it calls `warnings.warn('No valid pixels')` and returns
normally. -/
structure OMNO2Open where
  dsvalid : List (OMNO2Row × Bool)
  warnings : List String
deriving DecidableEq

/-- The validity portion of `OMNO2.open_dataset`: compute `valid`, warn (but
do not raise) when no pixel is valid, and return the dataset. -/
def OMNO2_open (rows : List OMNO2Row) (bbox : Option BBox) : OMNO2Open :=
  { dsvalid := rows.map (fun r => (r, OMNO2_valid bbox r))
    warnings := if rows.any (fun r => OMNO2_valid bbox r) then []
      else ["No valid pixels"] }

/-- One pixel of an OMHCHO dataset, with the fields its validity test
reads. -/
structure OMHCHORow where
  mainDataQualityFlag : ℤ
  xtrackQualityFlagsExpanded : ℤ
  amfCloudFraction : ℚ
  latitude : ℚ
  longitude : ℚ
deriving DecidableEq

/-- The `valid` flag computed by `OMHCHO.open_dataset`:
`MainDataQualityFlag == 0`, `(XtrackQualityFlagsExpanded & 1) == 0` and
`AMFCloudFraction <= 0.3`, AND-ed with the bounding-box test when a bbox is
given. -/
def OMHCHO_valid (bbox : Option BBox) (r : OMHCHORow) : Bool :=
  (r.mainDataQualityFlag == 0) && (r.xtrackQualityFlagsExpanded % 2 == 0)
    && decide (r.amfCloudFraction ≤ 3 / 10)
    && (match bbox with
      | none => true
      | some bb => bbox_valid bb r.latitude r.longitude)

/-- The validity portion of `OMHCHO.open_dataset`: compute `valid` and raise
`ValueError('No valid pixels in {path} with {bbox}')` when no pixel is valid
(the bbox part of the message is elided here); otherwise return the annotated
dataset. -/
def OMHCHO_open (rows : List OMHCHORow) (path : String) (bbox : Option BBox) :
    Except String (List (OMHCHORow × Bool)) :=
  if rows.any (fun r => OMHCHO_valid bbox r) then
    .ok (rows.map (fun r => (r, OMHCHO_valid bbox r)))
  else .error ("No valid pixels in " ++ path)

/-- Counterexample to C4 as stated: OMNO2 is an instrument reader whose
`open_dataset`, on a dataset whose every pixel fails the validity test, does
NOT raise: it returns the dataset (valid flag all false) and merely issues a
`'No valid pixels'` warning, as shown here on a concrete one-pixel dataset. -/
theorem OMNO2_zero_valid_no_raise :
    (OMNO2_open [⟨1, 1, 1, 0, 0⟩] none).dsvalid = [(⟨1, 1, 1, 0, 0⟩, false)]
    ∧ (OMNO2_open [⟨1, 1, 1, 0, 0⟩] none).warnings = ["No valid pixels"] := by
  constructor <;> norm_num [OMNO2_open, OMNO2_valid]

/-- C4 (amended): among the OMI readers, `OMHCHO.open_dataset` (like OMO3PR
and OMPROFOZ) raises the fatal `'No valid pixels'` error whenever zero pixels
pass validity filtering and bounding-box restriction, while
`OMNO2.open_dataset` does not raise there: it only issues a
`'No valid pixels'` warning and returns the all-invalid dataset. -/
theorem zero_valid_behaviour (hrows : List OMHCHORow) (nrows : List OMNO2Row)
    (path : String) (bbox : Option BBox)
    (hh : ∀ r ∈ hrows, OMHCHO_valid bbox r = false)
    (hn : ∀ r ∈ nrows, OMNO2_valid bbox r = false) :
    OMHCHO_open hrows path bbox = .error ("No valid pixels in " ++ path)
    ∧ (OMNO2_open nrows bbox).warnings = ["No valid pixels"]
    ∧ (OMNO2_open nrows bbox).dsvalid
      = nrows.map (fun r => (r, false)) := by
  have hany : hrows.any (fun r => OMHCHO_valid bbox r) = false := by
    simp only [List.any_eq_false]
    intro r hr
    simp [hh r hr]
  have nany : nrows.any (fun r => OMNO2_valid bbox r) = false := by
    simp only [List.any_eq_false]
    intro r hr
    simp [hn r hr]
  refine ⟨?_, ?_, ?_⟩
  · simp [OMHCHO_open, hany]
  · simp [OMNO2_open, nany]
  · simp only [OMNO2_open]
    exact List.map_congr_left (fun r hr => by rw [hn r hr])

/-- Witness for the amended C4 at concrete one-pixel datasets failing every
quality flag. -/
theorem zero_valid_behaviour_witness :
    OMHCHO_open [⟨1, 1, 1, 0, 0⟩] "f.nc" none
      = .error ("No valid pixels in " ++ "f.nc")
    ∧ (OMNO2_open [⟨1, 1, 1, 0, 0⟩] none).warnings = ["No valid pixels"] := by
  have h := zero_valid_behaviour [⟨1, 1, 1, 0, 0⟩] [⟨1, 1, 1, 0, 0⟩]
    "f.nc" none
    (by intro r hr; simp at hr; subst hr; simp [OMHCHO_valid])
    (by intro r hr; simp at hr; subst hr; simp [OMNO2_valid])
  exact ⟨h.1, h.2.1⟩

/-- One-dimensional piecewise-linear interpolation over an ascending list of
(coordinate, value) samples, in the manner of `numpy.interp`: queries at or
below the first coordinate return the first value, queries at or beyond the
last coordinate return the last value, and queries between two consecutive
coordinates interpolate linearly. -/
def interpPts (x : ℚ) : List (ℚ × ℚ) → ℚ
  | [] => 0
  | [p] => p.2
  | p :: q :: rest =>
    if x ≤ p.1 then p.2
    else if x ≤ q.1 then p.2 + (q.2 - p.2) * (x - p.1) / (q.1 - p.1)
    else interpPts x (q :: rest)

/-- The samples that survive NaN exclusion: pairs whose value is non-null,
keeping their coordinate. -/
def validPts (samples : List (ℚ × Option ℚ)) : List (ℚ × ℚ) :=
  samples.filterMap (fun s => s.2.map (fun v => (s.1, v)))

/-- The sample list as the interpolator consumes it: in given order for an
ascending source axis, reversed for a descending one. -/
def ordPts (samples : List (ℚ × Option ℚ)) (ascending : Bool) :
    List (ℚ × ℚ) :=
  if ascending then validPts samples else (validPts samples).reverse

/-- Modelled from the spec: `cmaqsatproc.utils.coord_interp` (used by
`OMNO2.cmaq_sw` and `OMHCHO.cmaq_sw` but not among the sources at hand)
performs per-pixel 1-D linear interpolation of `source_value` sampled at
`source_coord` onto each target coordinate, with the source axis declared
ascending or descending by the caller, out-of-range queries clamped to the
nearest endpoint value, and NaN source samples excluded from the
interpolation neighbors. -/
def coord_interp (x : ℚ) (samples : List (ℚ × Option ℚ))
    (ascending : Bool) : ℚ :=
  interpPts x (ordPts samples ascending)

theorem chain_lt_of_mem {p : ℚ × ℚ} {tail : List (ℚ × ℚ)} {x y : ℚ}
    (hs : List.Chain' (fun a b => a.1 < b.1) (p :: tail))
    (hmem : (x, y) ∈ tail) : p.1 < x := by
  induction tail generalizing p with
  | nil => cases hmem
  | cons q rest ih =>
    have hpq : p.1 < q.1 := List.chain'_cons.mp hs |>.1
    have hqs : List.Chain' (fun a b => a.1 < b.1) (q :: rest) :=
      List.chain'_cons.mp hs |>.2
    rcases List.mem_cons.mp hmem with h | h
    · rw [show x = q.1 by rw [← h]]
      exact hpq
    · exact lt_trans hpq (ih hqs h)

theorem chain_getLast_cases {q : ℚ × ℚ} {rest : List (ℚ × ℚ)} {l : ℚ × ℚ}
    (hs : List.Chain' (fun a b => a.1 < b.1) (q :: rest))
    (hl : (q :: rest).getLast? = some l) :
    q.1 < l.1 ∨ (rest = [] ∧ l = q) := by
  induction rest generalizing q with
  | nil =>
    right
    simp at hl
    exact ⟨rfl, hl.symm⟩
  | cons r rest2 ih =>
    left
    have hqr : q.1 < r.1 := List.chain'_cons.mp hs |>.1
    have hrs : List.Chain' (fun a b => a.1 < b.1) (r :: rest2) :=
      List.chain'_cons.mp hs |>.2
    have hl2 : (r :: rest2).getLast? = some l := by
      rw [← hl]
      exact List.getLast?_cons_cons.symm
    rcases ih hrs hl2 with h | ⟨h1, h2⟩
    · exact lt_trans hqr h
    · subst h2; exact hqr

theorem interpPts_clamp_low (x : ℚ) (pts : List (ℚ × ℚ)) (p : ℚ × ℚ)
    (hp : pts.head? = some p) (hx : x ≤ p.1) :
    interpPts x pts = p.2 := by
  cases pts with
  | nil => cases hp
  | cons p0 tail =>
    have hp0 : p0 = p := by simpa using hp
    subst hp0
    cases tail with
    | nil => simp [interpPts]
    | cons q rest => simp [interpPts, hx]

theorem interpPts_clamp_high (x : ℚ) (pts : List (ℚ × ℚ))
    (hs : List.Chain' (fun a b => a.1 < b.1) pts) (l : ℚ × ℚ)
    (hl : pts.getLast? = some l) (hx : l.1 ≤ x) :
    interpPts x pts = l.2 := by
  induction pts with
  | nil => cases hl
  | cons p tail ih =>
    cases tail with
    | nil =>
      have : p = l := by simpa using hl
      subst this
      simp [interpPts]
    | cons q rest =>
      have hpq : p.1 < q.1 := List.chain'_cons.mp hs |>.1
      have hqs : List.Chain' (fun a b => a.1 < b.1) (q :: rest) :=
        List.chain'_cons.mp hs |>.2
      have hl2 : (q :: rest).getLast? = some l := by
        rw [← hl]
        exact List.getLast?_cons_cons.symm
      have hql : q.1 ≤ l.1 := by
        rcases chain_getLast_cases hqs hl2 with h | ⟨h1, h2⟩
        · exact le_of_lt h
        · subst h2; exact le_refl _
      have hnotle : ¬ x ≤ p.1 := by linarith
      rw [interpPts, if_neg hnotle]
      by_cases hxq : x ≤ q.1
      · -- forces x = q.1 = l.1 and rest = []
        have hxl : x = q.1 := le_antisymm hxq (by linarith)
        rcases chain_getLast_cases hqs hl2 with h | ⟨h1, h2⟩
        · exfalso; linarith
        · rw [h2, if_pos hxq, hxl]
          have hne : q.1 - p.1 ≠ 0 := fun h0 => absurd hpq (by linarith)
          field_simp
      · rw [if_neg hxq]
        exact ih hqs hl2

theorem interpPts_node (pts : List (ℚ × ℚ))
    (hs : List.Chain' (fun a b => a.1 < b.1) pts) (x y : ℚ)
    (hmem : (x, y) ∈ pts) :
    interpPts x pts = y := by
  induction pts with
  | nil => cases hmem
  | cons p tail ih =>
    cases tail with
    | nil =>
      have hpe : (x, y) = p := by simpa using hmem
      rw [← hpe]
      simp [interpPts]
    | cons q rest =>
      have hpq : p.1 < q.1 := List.chain'_cons.mp hs |>.1
      have hqs : List.Chain' (fun a b => a.1 < b.1) (q :: rest) :=
        List.chain'_cons.mp hs |>.2
      rcases List.mem_cons.mp hmem with h | h
      · have hx : x = p.1 := by rw [← h]
        have hy : y = p.2 := by rw [← h]
        rw [interpPts, if_pos (le_of_eq hx), hy]
      · have hpx : p.1 < x := chain_lt_of_mem hs h
        rw [interpPts, if_neg (by linarith)]
        rcases List.mem_cons.mp h with h2 | h2
        · have hx : x = q.1 := by rw [← h2]
          have hy : y = q.2 := by rw [← h2]
          rw [if_pos (le_of_eq hx), hx, hy]
          have hne : q.1 - p.1 ≠ 0 := fun h0 => absurd hpq (by linarith)
          field_simp
        · have hqx : q.1 < x := chain_lt_of_mem hqs h2
          rw [if_neg (by linarith)]
          exact ih hqs h

theorem validPts_filter (samples : List (ℚ × Option ℚ)) :
    validPts (samples.filter (fun s => s.2.isSome)) = validPts samples := by
  induction samples with
  | nil => rfl
  | cons s rest ih =>
    obtain ⟨c, o⟩ := s
    cases o <;>
      simp [validPts, List.filter_cons, List.filterMap_cons] at ih ⊢ <;>
      simp [ih]

/-- C7: for a source axis whose non-NaN samples are strictly monotone in the
declared direction, `coord_interp` returns the exact stored value when
querying at a source coordinate node, returns the nearest endpoint value
(never extrapolating, never undefined) when querying outside the source
range, and ignores NaN samples entirely: interpolating over the raw sample
list equals interpolating over the list with the null samples dropped. -/
theorem coord_interp_spec (samples : List (ℚ × Option ℚ)) (asc : Bool)
    (hs : List.Chain' (fun p q => p.1 < q.1) (ordPts samples asc)) :
    (∀ x y, (x, y) ∈ ordPts samples asc → coord_interp x samples asc = y)
    ∧ (∀ x p, (ordPts samples asc).head? = some p → x ≤ p.1 →
      coord_interp x samples asc = p.2)
    ∧ (∀ x l, (ordPts samples asc).getLast? = some l → l.1 ≤ x →
      coord_interp x samples asc = l.2)
    ∧ (∀ x, coord_interp x samples asc
      = coord_interp x (samples.filter (fun s => s.2.isSome)) asc) := by
  refine ⟨?_, ?_, ?_, ?_⟩
  · intro x y hmem; exact interpPts_node _ hs x y hmem
  · intro x p hp hx; exact interpPts_clamp_low x _ p hp hx
  · intro x l hl hx; exact interpPts_clamp_high x _ hs l hl hx
  · intro x
    unfold coord_interp ordPts
    rw [validPts_filter]

/-- Witness for C7: three samples with a NaN in the middle, queried at a
node, below the range, above the range, and at the NaN coordinate; plus the
same axis declared descending. -/
theorem coord_interp_spec_witness :
    List.Chain' (fun p q : ℚ × ℚ => p.1 < q.1)
      (ordPts [(1, some 10), (2, none), (3, some 30)] true)
    ∧ coord_interp 3 [(1, some 10), (2, none), (3, some 30)] true = 30
    ∧ coord_interp 0 [(1, some 10), (2, none), (3, some 30)] true = 10
    ∧ coord_interp 9 [(1, some 10), (2, none), (3, some 30)] true = 30
    ∧ coord_interp 2 [(1, some 10), (2, none), (3, some 30)] true
      = coord_interp 2
        ([(1, some 10), (2, none), (3, some 30)].filter
          (fun s => s.2.isSome)) true
    ∧ coord_interp 9 [(3, some 30), (2, none), (1, some 10)] false = 30 := by
  have hs : List.Chain' (fun p q : ℚ × ℚ => p.1 < q.1)
      (ordPts [(1, some 10), (2, none), (3, some 30)] true) := by
    norm_num [ordPts, validPts, List.filterMap_cons]
  have h := coord_interp_spec [(1, some 10), (2, none), (3, some 30)] true hs
  have hs2 : List.Chain' (fun p q : ℚ × ℚ => p.1 < q.1)
      (ordPts [(3, some 30), (2, none), (1, some 10)] false) := by
    norm_num [ordPts, validPts, List.filterMap_cons]
  have h2 := coord_interp_spec [(3, some 30), (2, none), (1, some 10)]
    false hs2
  refine ⟨hs, ?_, ?_, ?_, h.2.2.2 2, ?_⟩
  · exact h.1 3 30 (by decide)
  · exact h.2.1 0 (1, 10) (by decide) (by decide)
  · exact h.2.2.1 9 (3, 30) (by decide) (by decide)
  · exact h2.2.2.1 9 (3, 30) (by decide) (by decide)

/-- The half-pixel-shifted edge coordinate axis constructed by the
interpolated-corner readers (`VIIRS_AERDT.prep_dataset`,
`VIIRS_AERDB.prep_dataset`, `OMO3PR.open_dataset`):
`np.concatenate([c[:1], c[1:] - 0.5, c[-1:]])` over the center coordinate
array. -/
def edge_axis (ax : List ℚ) : List ℚ :=
  ax.take 1 ++ (ax.drop 1).map (fun v => v - 1 / 2) ++ ax.drop (ax.length - 1)

/-- The edge axis of N centers has N+1 nodes: the first and last reuse the
boundary center coordinates and each interior node k (1 to N-1) sits at the
center coordinate minus one half. -/
theorem edge_axis_spec (ax : List ℚ) (hc : ax ≠ []) :
    (edge_axis ax).length = ax.length + 1
    ∧ (edge_axis ax)[0]? = ax[0]?
    ∧ (edge_axis ax)[ax.length]? = ax[ax.length - 1]?
    ∧ ∀ k, 1 ≤ k → k ≤ ax.length - 1 →
      (edge_axis ax)[k]? = (ax[k]?).map (fun v => v - 1 / 2) := by
  obtain ⟨x, rest, rfl⟩ : ∃ x rest, ax = x :: rest := by
    cases ax with
    | nil => exact absurd rfl hc
    | cons x rest => exact ⟨x, rest, rfl⟩
  have htake : (x :: rest).take 1 = [x] := by simp
  have hd1 : (x :: rest).drop 1 = rest := by simp
  have hlc : (x :: rest).length = rest.length + 1 := by simp
  have hab : ([x] ++ rest.map (fun v => v - 1 / 2)).length = rest.length + 1 := by
    simp only [List.length_append, List.length_singleton, List.length_map]
    omega
  refine ⟨?_, ?_, ?_, ?_⟩
  · rw [edge_axis, htake, hd1]
    simp only [List.length_append, List.length_singleton, List.length_map,
      List.length_drop, List.length_cons, List.length_nil]
    omega
  · rw [edge_axis, htake, hd1]
    rw [List.getElem?_append, if_pos (by rw [hab]; omega)]
    rw [List.getElem?_append, if_pos (by simp)]
    simp
  · rw [edge_axis, htake, hd1]
    rw [List.getElem?_append, if_neg (by rw [hab, hlc]; omega)]
    rw [hab, hlc, List.getElem?_drop]
    congr 1
    omega
  · intro k hk1 hk2
    rw [hlc] at hk2
    rw [edge_axis, htake, hd1]
    rw [List.getElem?_append, if_pos (by rw [hab]; omega)]
    rw [List.getElem?_append, if_neg (by simp only [List.length_singleton]; omega)]
    rw [List.getElem?_map]
    simp only [List.length_singleton]
    obtain ⟨k2, rfl⟩ : ∃ k2, k = k2 + 1 := ⟨k - 1, by omega⟩
    simp

/-- Orthogonal (dimension-at-a-time) linear interpolation of a gridded field
at new row and column positions, as `xarray.DataArray.interp` performs for
the corner construction: each original row is first interpolated at the new
column positions, then the results are interpolated along rows at the new
row positions. -/
def interp_grid (rpos cpos : List ℚ) (f : List (List ℚ))
    (nrpos ncpos : List ℚ) : List (List ℚ) :=
  nrpos.map (fun rp => ncpos.map (fun cp =>
    interpPts rp (rpos.zip (f.map (fun row => interpPts cp (cpos.zip row))))))

/-- The edge-node grid of a center field: center longitude/latitude
interpolated at the edge positions of both swath axes. -/
def edge_grid (tc xc : List ℚ) (f : List (List ℚ)) : List (List ℚ) :=
  interp_grid tc xc f (edge_axis tc) (edge_axis xc)

/-- The `ll` corner field: edge grid sliced `[:-1, :-1]`. -/
def corner_ll (g : List (List ℚ)) : List (List ℚ) :=
  g.dropLast.map (fun row => row.dropLast)

/-- The `lu` corner field: edge grid sliced `[:-1, 1:]`. -/
def corner_lu (g : List (List ℚ)) : List (List ℚ) :=
  g.dropLast.map (fun row => row.drop 1)

/-- The `uu` corner field: edge grid sliced `[1:, 1:]`. -/
def corner_uu (g : List (List ℚ)) : List (List ℚ) :=
  (g.drop 1).map (fun row => row.drop 1)

/-- The `ul` corner field: edge grid sliced `[1:, :-1]`. -/
def corner_ul (g : List (List ℚ)) : List (List ℚ) :=
  (g.drop 1).map (fun row => row.dropLast)

/-- Entry (i, j) of a two-dimensional grid stored as a list of rows. -/
def cell (g : List (List ℚ)) (i j : ℕ) : Option ℚ :=
  (g[i]?).bind (fun row => row[j]?)

theorem getElem?_dropLast_lt {α : Type} (l : List α) (i : ℕ)
    (h : i < l.length - 1) : l.dropLast[i]? = l[i]? := by
  rw [List.dropLast_eq_take, List.getElem?_take, if_pos h]

theorem getElem?_drop_one {α : Type} (l : List α) (i : ℕ) :
    (l.drop 1)[i]? = l[i + 1]? := by
  rw [List.getElem?_drop]
  congr 1
  omega

theorem cell_slices (g : List (List ℚ)) (n m : ℕ)
    (hg : g.length = n + 1) (hrow : ∀ row ∈ g, row.length = m + 1)
    (i j : ℕ) (hi : i < n) (hj : j < m) :
    cell (corner_ll g) i j = cell g i j
    ∧ cell (corner_lu g) i j = cell g i (j + 1)
    ∧ cell (corner_ul g) i j = cell g (i + 1) j
    ∧ cell (corner_uu g) i j = cell g (i + 1) (j + 1) := by
  have hi0 : i < g.length := by omega
  have hi1 : i + 1 < g.length := by omega
  obtain ⟨row0, h0⟩ : ∃ r, g[i]? = some r :=
    ⟨_, List.getElem?_eq_getElem hi0⟩
  obtain ⟨row1, h1⟩ : ∃ r, g[i + 1]? = some r :=
    ⟨_, List.getElem?_eq_getElem hi1⟩
  have hr0 : row0.length = m + 1 := hrow row0 (List.getElem?_mem h0)
  have hr1 : row1.length = m + 1 := hrow row1 (List.getElem?_mem h1)
  refine ⟨?_, ?_, ?_, ?_⟩
  · rw [cell, corner_ll, List.getElem?_map,
      getElem?_dropLast_lt g i (by omega), h0, cell, h0]
    simp only [Option.map_some', Option.some_bind]
    exact getElem?_dropLast_lt row0 j (by omega)
  · rw [cell, corner_lu, List.getElem?_map,
      getElem?_dropLast_lt g i (by omega), h0, cell, h0]
    simp only [Option.map_some', Option.some_bind]
    exact getElem?_drop_one row0 j
  · rw [cell, corner_ul, List.getElem?_map, getElem?_drop_one g i, h1,
      cell, h1]
    simp only [Option.map_some', Option.some_bind]
    exact getElem?_dropLast_lt row1 j (by omega)
  · rw [cell, corner_uu, List.getElem?_map, getElem?_drop_one g i, h1,
      cell, h1]
    simp only [Option.map_some', Option.some_bind]
    exact getElem?_drop_one row1 j

theorem edge_grid_shape (tc xc : List ℚ) (f : List (List ℚ))
    (htc : tc ≠ []) (hxc : xc ≠ []) :
    (edge_grid tc xc f).length = tc.length + 1
    ∧ ∀ row ∈ edge_grid tc xc f, row.length = xc.length + 1 := by
  constructor
  · simp only [edge_grid, interp_grid, List.length_map]
    exact (edge_axis_spec tc htc).1
  · intro row hr
    simp only [edge_grid, interp_grid, List.mem_map] at hr
    obtain ⟨rp, _, hrow⟩ := hr
    rw [← hrow]
    simp only [List.length_map]
    exact (edge_axis_spec xc hxc).1

/-- C8: for an interpolated-corner instrument, a swath axis with N center
coordinates yields an edge axis of N+1 nodes whose interior nodes are the
half-pixel-shifted positions and whose first and last nodes reuse the
boundary center coordinate; and the four corners (ll, lu, ul, uu) of each
pixel are the four neighboring nodes of the edge grid obtained by linear
interpolation of the center field at those edge positions. -/
theorem interpolated_corners_spec
    (ax : List ℚ) (hax : ax ≠ [])
    (tc xc : List ℚ) (f : List (List ℚ)) (htc : tc ≠ []) (hxc : xc ≠ [])
    (i j : ℕ) (hi : i < tc.length) (hj : j < xc.length) :
    ((edge_axis ax).length = ax.length + 1
      ∧ (edge_axis ax)[0]? = ax[0]?
      ∧ (edge_axis ax)[ax.length]? = ax[ax.length - 1]?
      ∧ ∀ k, 1 ≤ k → k ≤ ax.length - 1 →
        (edge_axis ax)[k]? = (ax[k]?).map (fun v => v - 1 / 2))
    ∧ (cell (corner_ll (edge_grid tc xc f)) i j
        = cell (edge_grid tc xc f) i j
      ∧ cell (corner_lu (edge_grid tc xc f)) i j
        = cell (edge_grid tc xc f) i (j + 1)
      ∧ cell (corner_ul (edge_grid tc xc f)) i j
        = cell (edge_grid tc xc f) (i + 1) j
      ∧ cell (corner_uu (edge_grid tc xc f)) i j
        = cell (edge_grid tc xc f) (i + 1) (j + 1)) := by
  refine ⟨edge_axis_spec ax hax, ?_⟩
  obtain ⟨hlen, hrows⟩ := edge_grid_shape tc xc f htc hxc
  exact cell_slices (edge_grid tc xc f) tc.length xc.length hlen hrows
    i j hi hj

/-- Witness for C8: the three-center axis 0, 1, 2 and a two-by-two center
field, checking the axis length, both boundary nodes, an interior node, and
the uu corner of pixel (0, 0). -/
theorem interpolated_corners_spec_witness :
    (edge_axis [0, 1, 2]).length = 3 + 1
    ∧ (edge_axis [0, 1, 2])[0]? = some 0
    ∧ (edge_axis [0, 1, 2])[3]? = some 2
    ∧ (edge_axis [0, 1, 2])[1]? = some (1 - 1 / 2)
    ∧ cell (corner_uu (edge_grid [0, 1] [0, 1] [[5, 6], [7, 8]])) 0 0
      = cell (edge_grid [0, 1] [0, 1] [[5, 6], [7, 8]]) 1 1 := by
  have h := interpolated_corners_spec [0, 1, 2] (by decide)
    [0, 1] [0, 1] [[5, 6], [7, 8]] (by decide) (by decide)
    0 0 (by decide) (by decide)
  refine ⟨?_, ?_, ?_, ?_, h.2.2.2.2⟩
  · have h1 := h.1.1
    simpa using h1
  · have h1 := h.1.2.1
    simpa using h1
  · have h1 := h.1.2.2.1
    simpa using h1
  · have h1 := h.1.2.2.2 1 (by decide) (by decide)
    simpa using h1

end CmaqSatProc
